import Mathlib

/-!
Shallow embedding of the achievement-dashboard core (main dashboard script):
the progress calculator (`AchievementProgress.calculate`), the RetroAchievements
subset expansion performed in `loadAchievements`, the filter/sort engine
(`applyFilters` / `applySorting`), the stats aggregator (`updateStats`) and the
link builder (`getGameLink`).

Modelling conventions:
 - JavaScript numbers appearing in the data are modelled as `Int` (the game
   records carry integers); the floating-point arithmetic of the progress
   calculator is modelled over `ℚ`; the special values produced by division
   (NaN, plus or minus Infinity) are modelled by the `JSVal` type.
 - Optional / possibly-`undefined` fields are `Option _`; JavaScript truthiness
   on strings (`""`, `null`, `undefined` are falsy) is `truthyS`, and on numbers
   (`0` is falsy) is folded into `jsOrNum`.
 - `String.prototype.localeCompare` is modelled as character-wise lexicographic
   comparison returning -1/0/1 (`localeCompareVal`).
 - `new Date(s)` followed by numeric comparison is modelled by `dateVal`, an
   order-preserving integer key for the ISO `YYYY-MM-DD` date strings the data
   files use (digits read positionally, other characters skipped).
 - `Array.prototype.sort(comparefn)` is modelled as a stable sort (`jsSort`,
   a right-fold insertion sort): an element `a` is placed before `b` when
   `comparefn a b` is not greater than zero, so equal-comparing elements keep
   their input order, as ECMAScript requires of a stable sort.
-/

/-- JavaScript truthiness of an optional string: `undefined`/`null`/`""` are falsy. -/
def truthyS : Option String → Bool
  | none => false
  | some s => !(s == "")

/-- JavaScript `a || b` on optional strings (`""` is falsy). -/
def jsOrStr (a b : Option String) : Option String :=
  if truthyS a then a else b

/-- JavaScript `a || b` on optional numbers (`0` is falsy, `undefined` is falsy). -/
def jsOrNum (a b : Option Int) : Option Int :=
  match a with
  | some v => if v = 0 then b else some v
  | none => b

/-- String interpolation of a possibly-`undefined` value (JavaScript renders
`undefined` as the text `"undefined"` inside a template literal). -/
def strVal : Option String → String
  | none => "undefined"
  | some s => s

/-- The values JavaScript floating-point arithmetic can produce in the
completion comparator: NaN, signed infinity (`inf true` is `+∞`), or a finite
value (modelled as a rational). -/
inductive JSVal where
  | nan : JSVal
  | inf : Bool → JSVal
  | fin : ℚ → JSVal
deriving DecidableEq, Repr

/-- JavaScript division of two integers: `x / 0` is `NaN` when `x = 0`,
otherwise a signed infinity; division by a nonzero integer is exact. -/
def jsDiv (a b : Int) : JSVal :=
  if b = 0 then (if a = 0 then JSVal.nan else JSVal.inf (decide (0 < a)))
  else JSVal.fin ((a : ℚ) / (b : ℚ))

/-- JavaScript multiplication by the positive constant 100. -/
def jsMul100 : JSVal → JSVal
  | JSVal.nan => JSVal.nan
  | JSVal.inf p => JSVal.inf p
  | JSVal.fin q => JSVal.fin (q * 100)

/-- JavaScript subtraction on `JSVal`: NaN propagates, `∞ - ∞` is NaN. -/
def jsSub : JSVal → JSVal → JSVal
  | JSVal.nan, _ => JSVal.nan
  | JSVal.inf _, JSVal.nan => JSVal.nan
  | JSVal.fin _, JSVal.nan => JSVal.nan
  | JSVal.inf p, JSVal.inf q => if p == q then JSVal.nan else JSVal.inf p
  | JSVal.inf p, JSVal.fin _ => JSVal.inf p
  | JSVal.fin _, JSVal.inf p => JSVal.inf !p
  | JSVal.fin a, JSVal.fin b => JSVal.fin (a - b)

/-- JavaScript `v > 0` (false for NaN). -/
def jsGt0 : JSVal → Bool
  | JSVal.nan => false
  | JSVal.inf p => p
  | JSVal.fin q => decide (0 < q)

/-- Character-wise lexicographic comparison returning -1/0/1; the model of
`String.prototype.localeCompare`. -/
def charListCmp : List Char → List Char → Int
  | [], [] => 0
  | [], _ :: _ => -1
  | _ :: _, [] => 1
  | a :: as, b :: bs => if a < b then -1 else if b < a then 1 else charListCmp as bs

/-- Model of `a.localeCompare(b)`. -/
def localeCompareVal (a b : String) : Int :=
  charListCmp a.data b.data

/-- Model of `new Date(s)` under numeric comparison: an order-preserving integer
key for ISO `YYYY-MM-DD` date strings (digits read positionally). -/
def dateVal (s : String) : Int :=
  s.data.foldl (fun acc c => if c.isDigit then acc * 10 + ((c.toNat : Int) - 48) else acc) 0

/-- Model of `String.prototype.toLowerCase` (as a character list). -/
def lowerChars (s : String) : List Char :=
  s.data.map Char.toLower

/-- Model of `String.prototype.includes`: `needle` occurs as a contiguous
subsequence of `hay`. -/
def strContainsSub (hay needle : List Char) : Bool :=
  (List.range (hay.length + 1)).any fun i => needle.isPrefixOf (hay.drop i)

/-- One entry of the `subsets` mapping of a raw RetroAchievements record. -/
structure Subset where
  name : Option String := none
  coverImage : Option String := none
  totalAchievements : Int := 0
  unlockedAchievements : Int := 0
  lastAchievement : Option String := none
  playedTime : Option Int := none
deriving DecidableEq, Repr

/-- A raw per-platform record as parsed from `data/<platform>.json`. The
`subsets` mapping is modelled as an association list (key, subset) in object
iteration order. -/
structure RawGame where
  platformId : Option String := none
  name : Option String := none
  coverImage : Option String := none
  totalAchievements : Int := 0
  unlockedAchievements : Int := 0
  lastAchievement : Option String := none
  playedTime : Option Int := none
  tags : Option (List String) := none
  console : Option String := none
  subsets : Option (List (String × Subset)) := none
deriving DecidableEq, Repr

/-- A flattened game record as produced by the loader (the NormalizedGame of
the specification); `platformId` is the effective identifier. -/
structure Game where
  platform : String := ""
  platformId : Option String := none
  parentId : Option String := none
  isSubset : Bool := false
  subsetId : Option String := none
  name : Option String := none
  coverImage : Option String := none
  totalAchievements : Int := 0
  unlockedAchievements : Int := 0
  lastAchievement : Option String := none
  playedTime : Option Int := none
  tags : Option (List String) := none
  console : Option String := none
deriving DecidableEq, Repr

namespace AchievementDashboard

/-- The record pushed for one `subsets` entry of a RetroAchievements raw game
(the body of the `Object.entries(game.subsets).forEach` in `loadAchievements`). -/
def subsetRecord (game : RawGame) (key : String) (subset : Subset) : Game :=
  let isBase := key == "Base"
  { platform := "retroachievements"
    platformId := if isBase then game.platformId else some key
    parentId := game.platformId
    isSubset := !isBase
    subsetId := if isBase then none else some key
    name := if isBase then jsOrStr game.name none
      else if truthyS game.name && truthyS subset.name then
        some ((game.name.getD "") ++ ": " ++ (subset.name.getD ""))
      else jsOrStr subset.name none
    coverImage := jsOrStr subset.coverImage none
    totalAchievements := subset.totalAchievements
    unlockedAchievements := subset.unlockedAchievements
    lastAchievement := jsOrStr subset.lastAchievement game.lastAchievement
    playedTime := jsOrNum subset.playedTime game.playedTime
    tags := game.tags
    console := game.console }

/-- The record pushed for a raw game without subset expansion
(`allGames.push({...game, platform})`). -/
def plainRecord (platform : String) (game : RawGame) : Game :=
  { platform := platform
    platformId := game.platformId
    parentId := none
    isSubset := false
    subsetId := none
    name := game.name
    coverImage := game.coverImage
    totalAchievements := game.totalAchievements
    unlockedAchievements := game.unlockedAchievements
    lastAchievement := game.lastAchievement
    playedTime := game.playedTime
    tags := game.tags
    console := game.console }

/-- The per-game branch of `loadAchievements`: a RetroAchievements record
carrying a `subsets` mapping expands into one record per subset entry (the
parent is not pushed on its own); every other record maps one-to-one. -/
def expandPlatformGame (platform : String) (game : RawGame) : List Game :=
  if platform == "retroachievements" then
    match game.subsets with
    | some entries => entries.map fun e => subsetRecord game e.1 e.2
    | none => [plainRecord platform game]
  else [plainRecord platform game]

end AchievementDashboard

namespace AchievementProgress

/-- `sanitizeNumber`: non-finite or negative input coerces to 0, fractional
input floors. (NaN and the infinities are not representable in `ℚ`; they take
the 0 branch in the source and are outside this embedding's input type.) -/
def sanitizeNumber (value : ℚ) : Int :=
  if 0 ≤ value then Int.floor value else 0

/-- JavaScript `Math.round`: round half toward positive infinity. -/
def jsRound (q : ℚ) : Int :=
  Int.floor (q + 1/2)

/-- The progress descriptor returned by `AchievementProgress.calculate`. -/
structure ProgressData where
  percentage : Int
  displayPercentage : String
  earned : Int
  total : Int
  isComplete : Bool
  status : String
  barWidth : String
  cssClass : String
  showRibbon : Bool
deriving DecidableEq, Repr

/-- `AchievementProgress.calculate`. -/
def calculate (totalAchievements earnedAchievements : ℚ) : ProgressData :=
  let total := sanitizeNumber totalAchievements
  let earned := sanitizeNumber earnedAchievements
  if total = 0 then
    { percentage := 0
      displayPercentage := "0%"
      earned := 0
      total := 0
      isComplete := false
      status := "No Achievements"
      barWidth := "2px"
      cssClass := ""
      showRibbon := false }
  else
    let cappedEarned := min earned total
    let rawPercentage := ((cappedEarned : ℚ) / (total : ℚ)) * 100
    let percentage := jsRound rawPercentage
    let isComplete := cappedEarned == total && decide (0 < total)
    let barWidth := if percentage = 0 then "2px"
      else if percentage < 1 then "2px"
      else toString percentage ++ "%"
    let status := if isComplete then "Complete"
      else if percentage = 0 then "Not Started"
      else if percentage < 25 then "Started"
      else if percentage < 75 then "In Progress"
      else "Almost There"
    { percentage := percentage
      displayPercentage := toString percentage ++ "%"
      earned := cappedEarned
      total := total
      isComplete := isComplete
      status := status
      barWidth := barWidth
      cssClass := if isComplete then "complete" else ""
      showRibbon := isComplete }

end AchievementProgress

/-- Stable insertion step: place `x` before the first element `y` of the
already-processed suffix for which the comparator does not put `x` after `y`.
This is the model of one step of a stable `Array.prototype.sort`. -/
def insertSorted {α : Type} (le : α → α → Bool) (x : α) : List α → List α
  | [] => [x]
  | y :: ys => if le x y then x :: y :: ys else y :: insertSorted le x ys

/-- Model of `Array.prototype.sort(comparefn)`: a stable sort placing `a`
before `b` when `comparefn a b` is not greater than zero. Processing the input
from the right keeps equal-comparing elements in input order. -/
def jsSort {α : Type} (le : α → α → Bool) (l : List α) : List α :=
  l.foldr (insertSorted le) []

namespace AchievementDashboard

/-- The completion score `(unlockedAchievements / totalAchievements) * 100`
computed by the `completion` branch of `applySorting`, with JavaScript
division semantics. -/
def completionScore (g : Game) : JSVal :=
  jsMul100 (jsDiv g.unlockedAchievements g.totalAchievements)

/-- The `recent` comparator (also used for the initial ordering in
`loadAchievements`): dated records first (descending by date), undated records
compared by name. -/
def recentComparefn (a b : Game) : Int :=
  if truthyS a.lastAchievement && truthyS b.lastAchievement then
    dateVal (b.lastAchievement.getD "") - dateVal (a.lastAchievement.getD "")
  else if truthyS a.lastAchievement && !truthyS b.lastAchievement then -1
  else if !truthyS a.lastAchievement && truthyS b.lastAchievement then 1
  else localeCompareVal (a.name.getD "") (b.name.getD "")

/-- The comparator selected by `applySorting`'s switch on the current sort key;
any string other than `name`, `completion`, `playtime` falls through to the
`recent` default branch. -/
def comparefn (sort : String) (a b : Game) : JSVal :=
  if sort == "name" then
    JSVal.fin ((localeCompareVal (a.name.getD "") (b.name.getD "") : ℚ))
  else if sort == "completion" then
    jsSub (completionScore b) (completionScore a)
  else if sort == "playtime" then
    JSVal.fin (((b.playedTime.getD 0 - a.playedTime.getD 0 : Int) : ℚ))
  else
    JSVal.fin ((recentComparefn a b : ℚ))

/-- `a` is placed no later than `b` by the sort: the comparator value is not
greater than zero (NaN comparator results count as ties). -/
def sortLe (sort : String) (a b : Game) : Bool :=
  !jsGt0 (comparefn sort a b)

/-- `applySorting`: sort the list with the comparator for the current sort key. -/
def applySorting (sort : String) (l : List Game) : List Game :=
  jsSort (sortLe sort) l

/-- The filter state of the dashboard (platform dropdown, tag include/exclude
sets, search box, sort dropdown). Tag sets are modelled as lists of distinct
tags; membership is what the filter consults. -/
structure FilterCriteria where
  currentPlatform : String := "all"
  includedTags : List String := []
  excludedTags : List String := []
  searchQuery : String := ""
  currentSort : String := "recent"
deriving DecidableEq, Repr

/-- The tag list the filter consults: `game.tags` when it is an array, else `[]`. -/
def gameTags (g : Game) : List String :=
  g.tags.getD []

/-- The filtering predicate of `applyFilters`: platform, tag include/exclude,
then free-text search on the name. -/
def passesFilters (c : FilterCriteria) (g : Game) : Bool :=
  (c.currentPlatform == "all" || g.platform == c.currentPlatform) &&
  ((c.includedTags.isEmpty && c.excludedTags.isEmpty) ||
    ((c.includedTags.isEmpty || (gameTags g).any fun t => c.includedTags.contains t) &&
     (c.excludedTags.isEmpty || !((gameTags g).any fun t => c.excludedTags.contains t)))) &&
  (c.searchQuery == "" ||
    strContainsSub (lowerChars (g.name.getD "")) (lowerChars c.searchQuery))

/-- The filtering phase of `applyFilters`. -/
def applyFilters (c : FilterCriteria) (games : List Game) : List Game :=
  games.filter (passesFilters c)

/-- The compound operation triggered on every criteria change: filter the base
list, then sort the filtered subset (the `apply` of the specification). -/
def apply (games : List Game) (c : FilterCriteria) : List Game :=
  applySorting c.currentSort (applyFilters c games)

/-- `updateStats` over a list: the sum of `unlockedAchievements` and the number
of fully completed games (`totalAchievements > 0` and equal counts). -/
def summarize (games : List Game) : Int × Nat :=
  (games.foldl (fun sum g => sum + g.unlockedAchievements) 0,
   (games.filter fun g =>
      decide (0 < g.totalAchievements) && (g.unlockedAchievements == g.totalAchievements)).length)

/-- `getGameLink`: the canonical outbound URL for a record, `none` when the
record has no (truthy) `platformId` or an unknown platform. -/
def getGameLink (game : Game) : Option String :=
  if !truthyS game.platformId then none
  else if game.platform == "retroachievements" then
    let baseUrl := "https://retroachievements.org/game/" ++
      strVal (jsOrStr game.parentId game.platformId)
    if game.isSubset && truthyS game.subsetId then
      some (baseUrl ++ "?set=" ++ strVal game.subsetId)
    else some baseUrl
  else if game.platform == "steam" then
    some ("https://steamcommunity.com/stats/" ++ strVal game.platformId ++ "/achievements")
  else if game.platform == "gog" then
    some ("https://www.gog.com/game/" ++ strVal game.platformId)
  else none

/-- Modelled from the spec: the completion ratio the specification recommends,
with the degenerate zero-total case normalized to the safe default 0
(the source instead performs the raw JavaScript division). -/
def specSafeScore (g : Game) : ℚ :=
  if g.totalAchievements = 0 then 0
  else ((g.unlockedAchievements : ℚ) / (g.totalAchievements : ℚ)) * 100

/-- Modelled from the spec: the take-left relation of a completion sort whose
ratio is normalized to 0 on zero totals. -/
def specSafeLe (a b : Game) : Bool :=
  !decide (0 < specSafeScore b - specSafeScore a)

/-- Modelled from the spec: completion sort over the safe ratio. -/
def specApplySortingSafe (l : List Game) : List Game :=
  jsSort specSafeLe l

end AchievementDashboard

/-- Inserting an element is a permutation of consing it. -/
theorem insertSorted_perm {α : Type} (le : α → α → Bool) (x : α) (l : List α) :
    (insertSorted le x l).Perm (x :: l) := by
  induction l with
  | nil => simp [insertSorted]
  | cons y ys ih =>
    by_cases h : le x y
    · simp [insertSorted, h]
    · simp only [insertSorted, h, if_neg]
      exact ((ih.cons y).trans (List.Perm.swap x y ys)).symm.symm

/-- The stable sort returns a permutation of its input. -/
theorem jsSort_perm {α : Type} (le : α → α → Bool) (l : List α) :
    (jsSort le l).Perm l := by
  induction l with
  | nil => simp [jsSort]
  | cons a l ih =>
    have : jsSort le (a :: l) = insertSorted le a (jsSort le l) := rfl
    rw [this]
    exact (insertSorted_perm le a (jsSort le l)).trans (ih.cons a)

/-- The head of an insertion is either the inserted element or the old head. -/
theorem insertSorted_head {α : Type} (le : α → α → Bool) (x : α) (l : List α) :
    (insertSorted le x l).head? = some x ∨ (insertSorted le x l).head? = l.head? := by
  cases l with
  | nil => left; rfl
  | cons y ys =>
    by_cases h : le x y
    · left; simp [insertSorted, h]
    · right; simp [insertSorted, h]

/-- A comparator-total relation: one of the two orders always holds (true of
every JavaScript comparefn of the form sign of a difference). -/
def LeTotal {α : Type} (le : α → α → Bool) : Prop :=
  ∀ a b, le a b = true ∨ le b a = true

/-- Inserting into an adjacently-sorted list keeps it adjacently sorted,
assuming only totality of the relation. -/
theorem chain'_insertSorted {α : Type} {le : α → α → Bool} (tot : LeTotal le) (x : α) :
    ∀ l : List α, l.Chain' (fun a b => le a b = true) →
      (insertSorted le x l).Chain' (fun a b => le a b = true) := by
  intro l
  induction l with
  | nil => intro _; simp [insertSorted]
  | cons y ys ih =>
    intro h
    rw [List.chain'_cons'] at h
    by_cases hxy : le x y = true
    · have e : insertSorted le x (y :: ys) = x :: y :: ys := by
        simp [insertSorted, hxy]
      rw [e, List.chain'_cons']
      refine ⟨?_, List.chain'_cons'.mpr h⟩
      intro z hz
      simp at hz
      rw [← hz]
      exact hxy
    · have e : insertSorted le x (y :: ys) = y :: insertSorted le x ys := by
        simp [insertSorted, hxy]
      rw [e, List.chain'_cons']
      refine ⟨?_, ih h.2⟩
      intro z hz
      rcases insertSorted_head le x ys with hh | hh
      · rw [hh] at hz
        simp at hz
        rw [← hz]
        rcases tot y x with hyx | hyx
        · exact hyx
        · exact absurd hyx hxy
      · rw [hh] at hz
        exact h.1 z hz

/-- The stable sort produces an adjacently-sorted list, from totality alone. -/
theorem jsSort_chain' {α : Type} {le : α → α → Bool} (tot : LeTotal le) (l : List α) :
    (jsSort le l).Chain' (fun a b => le a b = true) := by
  induction l with
  | nil => simp [jsSort]
  | cons a l ih => exact chain'_insertSorted tot a (jsSort le l) ih

/-- The stable sort is the identity on adjacently-sorted input. -/
theorem jsSort_of_chain' {α : Type} {le : α → α → Bool} :
    ∀ l : List α, l.Chain' (fun a b => le a b = true) → jsSort le l = l := by
  intro l
  induction l with
  | nil => intro _; rfl
  | cons a l ih =>
    intro h
    rw [List.chain'_cons'] at h
    have : jsSort le (a :: l) = insertSorted le a (jsSort le l) := rfl
    rw [this, ih h.2]
    cases l with
    | nil => rfl
    | cons y ys =>
      have hay : le a y = true := h.1 y rfl
      simp [insertSorted, hay]

/-- The stable sort is idempotent for every total comparator relation. -/
theorem jsSort_idem {α : Type} {le : α → α → Bool} (tot : LeTotal le) (l : List α) :
    jsSort le (jsSort le l) = jsSort le l :=
  jsSort_of_chain' (jsSort le l) (jsSort_chain' tot l)

/-- `localeCompare` is antisymmetric in value: swapping arguments negates it. -/
theorem charListCmp_neg : ∀ a b : List Char, charListCmp a b = -charListCmp b a := by
  intro a
  induction a with
  | nil => intro b; cases b <;> simp [charListCmp]
  | cons x xs ih =>
    intro b
    cases b with
    | nil => simp [charListCmp]
    | cons y ys =>
      rcases lt_trichotomy x y with h | h | h
      · simp [charListCmp, h, asymm h, ne_of_gt h]
      · subst h
        simp [charListCmp, lt_irrefl, ih ys]
      · simp [charListCmp, h, asymm h, ne_of_gt h]

namespace AchievementDashboard

/-- The `recent` comparator negates under argument swap. -/
theorem recentComparefn_neg (a b : Game) : recentComparefn a b = -recentComparefn b a := by
  unfold recentComparefn
  by_cases ha : truthyS a.lastAchievement = true <;>
    by_cases hb : truthyS b.lastAchievement = true <;>
      simp [ha, hb, localeCompareVal, charListCmp_neg (a.name.getD "").data]

end AchievementDashboard

/-- The comparator decision `comparefn > 0` cannot hold in both argument
orders, whatever NaN or infinite values arise. -/
theorem jsGt0_jsSub_asymm (x y : JSVal) :
    jsGt0 (jsSub x y) = true → jsGt0 (jsSub y x) = false := by
  cases x with
  | nan => intro h; simp [jsSub, jsGt0] at h
  | inf p =>
    cases y with
    | nan => intro h; simp [jsSub, jsGt0] at h
    | inf q =>
      cases p <;> cases q <;> simp [jsSub, jsGt0]
    | fin b =>
      cases p <;> simp [jsSub, jsGt0]
  | fin a =>
    cases y with
    | nan => intro h; simp [jsSub, jsGt0] at h
    | inf q => cases q <;> simp [jsSub, jsGt0]
    | fin b =>
      simp [jsSub, jsGt0]
      intro h
      linarith

/-- A pair of integer-valued comparator results that negate each other cannot
both be positive. -/
theorem finIntCast_le_total (v w : Int) (h : v = -w) :
    (!jsGt0 (JSVal.fin (v : ℚ))) = true ∨ (!jsGt0 (JSVal.fin (w : ℚ))) = true := by
  simp only [jsGt0, Bool.not_eq_true', decide_eq_false_iff_not, not_lt]
  rcases le_total v 0 with hv | hv
  · left; exact_mod_cast hv
  · right
    have hw : w ≤ 0 := by omega
    exact_mod_cast hw

/-- The take-left decision derived from a JavaScript difference comparator is
total. -/
theorem jsSub_le_total (x y : JSVal) :
    (!jsGt0 (jsSub x y)) = true ∨ (!jsGt0 (jsSub y x)) = true := by
  rcases Bool.eq_false_or_eq_true (jsGt0 (jsSub x y)) with h | h
  · right; simp [jsGt0_jsSub_asymm x y h]
  · left; simp [h]

namespace AchievementDashboard

/-- Every comparator the sort switch can select is total in the take-left
sense: for any two records, at least one may come first. -/
theorem sortLe_total (sort : String) : LeTotal (sortLe sort) := by
  intro a b
  unfold sortLe comparefn
  by_cases h1 : (sort == "name") = true
  · simp only [h1, if_true]
    refine finIntCast_le_total _ _ ?_
    rw [localeCompareVal, localeCompareVal, charListCmp_neg]
  · simp only [if_neg h1]
    by_cases h2 : (sort == "completion") = true
    · simp only [h2, if_true]
      exact jsSub_le_total _ _
    · simp only [if_neg h2]
      by_cases h3 : (sort == "playtime") = true
      · simp only [h3, if_true]
        refine finIntCast_le_total _ _ ?_
        omega
      · simp only [if_neg h3]
        refine finIntCast_le_total _ _ ?_
        rw [recentComparefn_neg a b]

/-- Re-applying the same criteria is the identity: the filter keeps everything
it already kept, and the stable sort fixes its own output. -/
theorem apply_idem_aux (games : List Game) (c : FilterCriteria) :
    apply (apply games c) c = apply games c := by
  unfold apply applyFilters applySorting
  have hfix : (jsSort (sortLe c.currentSort) (games.filter (passesFilters c))).filter
      (passesFilters c) = jsSort (sortLe c.currentSort) (games.filter (passesFilters c)) := by
    apply List.filter_eq_self.mpr
    intro a ha
    have hmem : a ∈ games.filter (passesFilters c) :=
      (jsSort_perm (sortLe c.currentSort) (games.filter (passesFilters c))).mem_iff.mp ha
    exact List.of_mem_filter hmem
  rw [hfix]
  exact jsSort_idem (sortLe_total c.currentSort) _

end AchievementDashboard

namespace AchievementProgress

/-- Sanitized numbers are never negative. -/
theorem sanitizeNumber_nonneg (q : ℚ) : 0 ≤ sanitizeNumber q := by
  unfold sanitizeNumber
  split_ifs with h
  · exact Int.floor_nonneg.mpr h
  · exact le_refl 0

/-- Shape of the nonzero-total branch of `calculate`. -/
theorem calculate_spec (total earned : ℚ) (h0 : sanitizeNumber total ≠ 0) :
    (calculate total earned).percentage =
      jsRound (((min (sanitizeNumber earned) (sanitizeNumber total) : Int) : ℚ) /
        ((sanitizeNumber total : Int) : ℚ) * 100) ∧
    (calculate total earned).isComplete =
      ((min (sanitizeNumber earned) (sanitizeNumber total) == sanitizeNumber total) &&
        decide (0 < sanitizeNumber total)) := by
  simp [calculate, h0]

end AchievementProgress

/-- C4: for every total ≥ 0 and earned ≥ 0, `calculate(total, earned).percentage`
is an integer in [0, 100], and whenever the returned `isComplete` is true the
returned percentage equals 100. -/
theorem c4_percentage_bounds (total earned : ℚ) (ht : 0 ≤ total) (he : 0 ≤ earned) :
    0 ≤ (AchievementProgress.calculate total earned).percentage ∧
    (AchievementProgress.calculate total earned).percentage ≤ 100 ∧
    ((AchievementProgress.calculate total earned).isComplete = true →
      (AchievementProgress.calculate total earned).percentage = 100) := by
  by_cases h0 : AchievementProgress.sanitizeNumber total = 0
  · simp [AchievementProgress.calculate, h0]
  · obtain ⟨hp, hc⟩ := AchievementProgress.calculate_spec total earned h0
    have ht0 : 0 < AchievementProgress.sanitizeNumber total :=
      lt_of_le_of_ne (AchievementProgress.sanitizeNumber_nonneg total) (Ne.symm h0)
    have hc0 : 0 ≤ min (AchievementProgress.sanitizeNumber earned)
        (AchievementProgress.sanitizeNumber total) :=
      le_min (AchievementProgress.sanitizeNumber_nonneg earned) (le_of_lt ht0)
    have hct : min (AchievementProgress.sanitizeNumber earned)
        (AchievementProgress.sanitizeNumber total) ≤ AchievementProgress.sanitizeNumber total :=
      min_le_right _ _
    have htq : (0 : ℚ) < ((AchievementProgress.sanitizeNumber total : Int) : ℚ) := by
      exact_mod_cast ht0
    have hx0 : (0 : ℚ) ≤ ((min (AchievementProgress.sanitizeNumber earned)
        (AchievementProgress.sanitizeNumber total) : Int) : ℚ) /
        ((AchievementProgress.sanitizeNumber total : Int) : ℚ) * 100 := by
      apply mul_nonneg _ (by norm_num)
      apply div_nonneg _ (le_of_lt htq)
      exact_mod_cast hc0
    have hx100 : ((min (AchievementProgress.sanitizeNumber earned)
        (AchievementProgress.sanitizeNumber total) : Int) : ℚ) /
        ((AchievementProgress.sanitizeNumber total : Int) : ℚ) * 100 ≤ 100 := by
      have h1 : ((min (AchievementProgress.sanitizeNumber earned)
          (AchievementProgress.sanitizeNumber total) : Int) : ℚ) /
          ((AchievementProgress.sanitizeNumber total : Int) : ℚ) ≤ 1 := by
        rw [div_le_one htq]
        exact_mod_cast hct
      linarith
    refine ⟨?_, ?_, ?_⟩
    · rw [hp]
      unfold AchievementProgress.jsRound
      refine Int.le_floor.mpr ?_
      rw [show ((0 : Int) : ℚ) = 0 by norm_num]
      linarith
    · rw [hp]
      unfold AchievementProgress.jsRound
      have hmono := Int.floor_le_floor
        (show ((min (AchievementProgress.sanitizeNumber earned)
          (AchievementProgress.sanitizeNumber total) : Int) : ℚ) /
          ((AchievementProgress.sanitizeNumber total : Int) : ℚ) * 100 + 1/2 ≤ (201/2 : ℚ) by
            linarith)
      have h201 : (⌊(201/2 : ℚ)⌋ : Int) = 100 := by norm_num
      omega
    · intro hcompl
      rw [hc] at hcompl
      simp only [Bool.and_eq_true, beq_iff_eq, decide_eq_true_eq] at hcompl
      rw [hp, hcompl.1]
      unfold AchievementProgress.jsRound
      rw [div_self (ne_of_gt htq)]
      norm_num

/-- C4 witness: the bounds at the concrete input (50, 49). -/
theorem c4_percentage_bounds_witness :
    0 ≤ (AchievementProgress.calculate 50 49).percentage ∧
    (AchievementProgress.calculate 50 49).percentage ≤ 100 ∧
    ((AchievementProgress.calculate 50 49).isComplete = true →
      (AchievementProgress.calculate 50 49).percentage = 100) :=
  c4_percentage_bounds 50 49 (by norm_num) (by norm_num)

/-- C8: a displayed 100% does not imply completion: at total = 200,
earned = 199 the calculator reports percentage 100 (display string "100%")
while `isComplete` is false and the status is "Almost There". -/
theorem c8_display_100_not_complete :
    (AchievementProgress.calculate 200 199).percentage = 100 ∧
    (AchievementProgress.calculate 200 199).displayPercentage = "100%" ∧
    (AchievementProgress.calculate 200 199).isComplete = false ∧
    (AchievementProgress.calculate 200 199).status = "Almost There" := by
  have hs200 : AchievementProgress.sanitizeNumber 200 = 200 := by
    unfold AchievementProgress.sanitizeNumber
    norm_num
  have hs199 : AchievementProgress.sanitizeNumber 199 = 199 := by
    unfold AchievementProgress.sanitizeNumber
    norm_num
  have hround : AchievementProgress.jsRound ((199 : ℚ) / 2) = 100 := by
    unfold AchievementProgress.jsRound
    norm_num
  have hmin : min (199 : Int) 200 = 199 := by norm_num
  simp only [AchievementProgress.calculate, hs200, hs199, hmin]
  norm_num [hround]
  decide

/-- C1: a raw RetroAchievements record carrying a `subsets` mapping expands to
exactly one normalized record per subset entry (the parent is not pushed as a
standalone entry), and every non-Base entry carries `parentId` equal to the
parent's `platformId`, `isSubset = true`, the subset key as its effective
identifier, and the name "parent: subset" when both names are present. -/
theorem c1_subset_expansion (g : RawGame) (entries : List (String × Subset))
    (hsub : g.subsets = some entries) :
    AchievementDashboard.expandPlatformGame "retroachievements" g =
      entries.map (fun e => AchievementDashboard.subsetRecord g e.1 e.2) ∧
    (AchievementDashboard.expandPlatformGame "retroachievements" g).length = entries.length ∧
    ∀ key sub, key ≠ "Base" →
      (AchievementDashboard.subsetRecord g key sub).parentId = g.platformId ∧
      (AchievementDashboard.subsetRecord g key sub).isSubset = true ∧
      (AchievementDashboard.subsetRecord g key sub).platformId = some key ∧
      ∀ pn sn, g.name = some pn → sub.name = some sn → pn ≠ "" → sn ≠ "" →
        (AchievementDashboard.subsetRecord g key sub).name = some (pn ++ ": " ++ sn) := by
  have hexp : AchievementDashboard.expandPlatformGame "retroachievements" g =
      entries.map (fun e => AchievementDashboard.subsetRecord g e.1 e.2) := by
    unfold AchievementDashboard.expandPlatformGame
    rw [hsub]
    rfl
  refine ⟨hexp, by rw [hexp]; exact List.length_map _ _, ?_⟩
  intro key sub hkey
  have hb : (key == "Base") = false := by
    simpa using hkey
  unfold AchievementDashboard.subsetRecord
  refine ⟨by simp [hb], by simp [hb], by simp [hb], ?_⟩
  intro pn sn hpn hsn hpn0 hsn0
  have htp : truthyS (some pn) = true := by
    simpa [truthyS] using hpn0
  have hts : truthyS (some sn) = true := by
    simpa [truthyS] using hsn0
  simp [hb, hpn, hsn, htp, hts]

/-- The raw RetroAchievements record of the C1 example: a parent with a Base
entry and one bonus subset keyed "1234". -/
def c1sub : Subset := { name := some "Bonus" }

def c1raw : RawGame :=
  { platformId := some "9876"
    name := some "Parent"
    subsets := some [("Base", {}), ("1234", c1sub)] }

/-- C1 witness: the example record expands to exactly 2 entries and the
non-Base entry carries the documented fields. -/
theorem c1_subset_expansion_witness :
    (AchievementDashboard.expandPlatformGame "retroachievements" c1raw).length = 2 ∧
    (AchievementDashboard.subsetRecord c1raw "1234" c1sub).parentId = some "9876" ∧
    (AchievementDashboard.subsetRecord c1raw "1234" c1sub).isSubset = true ∧
    (AchievementDashboard.subsetRecord c1raw "1234" c1sub).platformId = some "1234" ∧
    (AchievementDashboard.subsetRecord c1raw "1234" c1sub).name = some "Parent: Bonus" := by
  obtain ⟨hmap, hlen, hfields⟩ := c1_subset_expansion c1raw [("Base", {}), ("1234", c1sub)] rfl
  obtain ⟨h1, h2, h3, h4⟩ := hfields "1234" c1sub (by decide)
  exact ⟨hlen.trans rfl, h1, h2, h3,
    h4 "Parent" "Bonus" rfl rfl (by decide) (by decide)⟩

/-- C9: subset field inheritance triggers on any falsy value, not only absence:
a subset whose `playedTime` is the (falsy) number 0 yields a record carrying
the parent's `playedTime`, and a subset whose `lastAchievement` is the (falsy)
empty string yields a record carrying the parent's `lastAchievement`. -/
theorem c9_falsy_inheritance (g : RawGame) (key : String) (sub : Subset) :
    (AchievementDashboard.subsetRecord g key
      { sub with playedTime := some 0 }).playedTime = g.playedTime ∧
    (AchievementDashboard.subsetRecord g key
      { sub with lastAchievement := some "" }).lastAchievement = g.lastAchievement := by
  unfold AchievementDashboard.subsetRecord
  simp [jsOrNum, jsOrStr, truthyS]

/-- The dated record of the C3 example. -/
def gB : Game := { name := some "B", lastAchievement := some "2024-01-01" }

/-- The undated record of the C3 example. -/
def gA : Game := { name := some "A" }

/-- C3: under the `recent` sort a dated record sorts before an undated one
(comparator -1, resp. 1), two dated records compare descending by date, the
fallback for two undated records is lexical ascending on name, and the example
list [B dated, A undated] sorts to [B, A]. -/
theorem c3_recent_sort (a b : Game) :
    (truthyS a.lastAchievement = true → truthyS b.lastAchievement = false →
      AchievementDashboard.recentComparefn a b = -1) ∧
    (truthyS a.lastAchievement = false → truthyS b.lastAchievement = true →
      AchievementDashboard.recentComparefn a b = 1) ∧
    (∀ sa sb, a.lastAchievement = some sa → b.lastAchievement = some sb → sa ≠ "" → sb ≠ "" →
      AchievementDashboard.recentComparefn a b = dateVal sb - dateVal sa) ∧
    (truthyS a.lastAchievement = false → truthyS b.lastAchievement = false →
      AchievementDashboard.recentComparefn a b =
        localeCompareVal (a.name.getD "") (b.name.getD "")) ∧
    AchievementDashboard.applySorting "recent" [gB, gA] = [gB, gA] := by
  refine ⟨?_, ?_, ?_, ?_, ?_⟩
  · intro ha hb
    simp [AchievementDashboard.recentComparefn, ha, hb]
  · intro ha hb
    simp [AchievementDashboard.recentComparefn, ha, hb]
  · intro sa sb hsa hsb hsa0 hsb0
    have hta : truthyS (some sa) = true := by
      simpa [truthyS] using hsa0
    have htb : truthyS (some sb) = true := by
      simpa [truthyS] using hsb0
    simp [AchievementDashboard.recentComparefn, hsa, hsb, hta, htb]
  · intro ha hb
    simp [AchievementDashboard.recentComparefn, ha, hb]
  · have hcmp : AchievementDashboard.recentComparefn gB gA = -1 := by
      simp [AchievementDashboard.recentComparefn, gB, gA, truthyS]
    have hle : AchievementDashboard.sortLe "recent" gB gA = true := by
      simp [AchievementDashboard.sortLe, AchievementDashboard.comparefn, hcmp, jsGt0]
    simp [AchievementDashboard.applySorting, jsSort, insertSorted, hle]

/-- C3 witness: the comparator facts discharged at the example records. -/
theorem c3_recent_sort_witness :
    AchievementDashboard.recentComparefn gB gA = -1 ∧
    AchievementDashboard.recentComparefn gA gB = 1 :=
  ⟨(c3_recent_sort gB gA).1 (by decide) (by decide),
   (c3_recent_sort gA gB).2.1 (by decide) (by decide)⟩

/-- A half-completed record (ratio 50) for the C2 counterexample. -/
def gHalf : Game := { name := some "H", totalAchievements := 10, unlockedAchievements := 5 }

/-- A degenerate record with zero total but nonzero unlocked count (JavaScript
ratio +Infinity) for the C2 counterexample. -/
def gZeroTot : Game := { name := some "Z", totalAchievements := 0, unlockedAchievements := 5 }

/-- C2 counterexample: the completion comparator does not normalize a
zero-total record's ratio to 0. A record with `totalAchievements = 0` and
`unlockedAchievements = 5` scores +Infinity and sorts to the front, whereas
the spec-recommended safe-default-0 comparator would keep it at the back: the
two sorts produce observably different orders on the same two-record list. -/
theorem c2_safe_default_cex :
    AchievementDashboard.completionScore gZeroTot = JSVal.inf true ∧
    AchievementDashboard.applySorting "completion" [gHalf, gZeroTot] = [gZeroTot, gHalf] ∧
    AchievementDashboard.specApplySortingSafe [gHalf, gZeroTot] = [gHalf, gZeroTot] ∧
    AchievementDashboard.applySorting "completion" [gHalf, gZeroTot] ≠
      AchievementDashboard.specApplySortingSafe [gHalf, gZeroTot] := by
  have hscoreZ : AchievementDashboard.completionScore gZeroTot = JSVal.inf true := rfl
  have hsort : AchievementDashboard.applySorting "completion" [gHalf, gZeroTot] =
      [gZeroTot, gHalf] := rfl
  have hsafeH : AchievementDashboard.specSafeScore gHalf = 50 := by
    rw [AchievementDashboard.specSafeScore]
    norm_num [gHalf]
  have hsafeZ : AchievementDashboard.specSafeScore gZeroTot = 0 := by
    rw [AchievementDashboard.specSafeScore]
    norm_num [gZeroTot]
  have hsafele : AchievementDashboard.specSafeLe gHalf gZeroTot = true := by
    rw [AchievementDashboard.specSafeLe, hsafeH, hsafeZ]
    norm_num
  have hsafe : AchievementDashboard.specApplySortingSafe [gHalf, gZeroTot] =
      [gHalf, gZeroTot] := by
    simp [AchievementDashboard.specApplySortingSafe, jsSort, insertSorted, hsafele]
  refine ⟨hscoreZ, hsort, hsafe, ?_⟩
  rw [hsort, hsafe]
  simp [gHalf, gZeroTot]

/-- C2 (amended): the completion comparator follows raw JavaScript semantics on
degenerate records: with `totalAchievements = 0` the score is NaN when the
unlocked count is 0 (the comparator then reports a tie) and a signed infinity
otherwise — it is not normalized to 0. The sort itself never fails and always
returns a (deterministic, model-fixed) permutation of the filtered input. -/
theorem c2_completion_sort_permutation :
    (∀ l : List Game, (AchievementDashboard.applySorting "completion" l).Perm l) ∧
    (∀ g : Game,
      AchievementDashboard.completionScore { g with totalAchievements := 0 } =
        (if g.unlockedAchievements = 0 then JSVal.nan
         else JSVal.inf (decide (0 < g.unlockedAchievements)))) := by
  constructor
  · intro l
    exact jsSort_perm _ l
  · intro g
    by_cases h : g.unlockedAchievements = 0 <;>
      simp [AchievementDashboard.completionScore, jsDiv, jsMul100, h]

/-- C5: applying the same filter criteria and sort key twice equals applying
them once — the filtered list passes its own filter again, and the stable sort
is idempotent because every selectable comparator is total. -/
theorem c5_apply_idempotent (games : List Game) (c : AchievementDashboard.FilterCriteria) :
    AchievementDashboard.apply (AchievementDashboard.apply games c) c =
      AchievementDashboard.apply games c :=
  AchievementDashboard.apply_idem_aux games c

/-- C6: with criteria whose only constraint is a single included tag, every
record in the output carries that tag; and with any non-empty included-tag set
(platform "all", no excluded tags, empty search) a record passes the filter
precisely when its tags intersect the included set. -/
theorem c6_tag_include_filter :
    (∀ (games : List Game) (sort t : String) (g : Game),
      g ∈ AchievementDashboard.apply games
        { currentPlatform := "all", includedTags := [t], excludedTags := [],
          searchQuery := "", currentSort := sort } →
      t ∈ AchievementDashboard.gameTags g) ∧
    (∀ (g : Game) (inc : List String) (sort : String), inc ≠ [] →
      (AchievementDashboard.passesFilters
        { currentPlatform := "all", includedTags := inc, excludedTags := [],
          searchQuery := "", currentSort := sort } g = true ↔
        ∃ t ∈ AchievementDashboard.gameTags g, t ∈ inc)) := by
  have hpass : ∀ (g : Game) (inc : List String) (sort : String), inc ≠ [] →
      (AchievementDashboard.passesFilters
        { currentPlatform := "all", includedTags := inc, excludedTags := [],
          searchQuery := "", currentSort := sort } g = true ↔
        ∃ t ∈ AchievementDashboard.gameTags g, t ∈ inc) := by
    intro g inc sort hinc
    cases inc with
    | nil => exact absurd rfl hinc
    | cons i is =>
      simp [AchievementDashboard.passesFilters, List.any_eq_true]
  refine ⟨?_, hpass⟩
  intro games sort t g hg
  have hmem : g ∈ AchievementDashboard.applyFilters
      { currentPlatform := "all", includedTags := [t], excludedTags := [],
        searchQuery := "", currentSort := sort } games := by
    exact (jsSort_perm _ _).mem_iff.mp hg
  have hpassed := List.of_mem_filter hmem
  obtain ⟨u, hu, hui⟩ := (hpass g [t] sort (by simp)).mp hpassed
  simp at hui
  rw [← hui]
  exact hu

/-- The C6 witness record: one game carrying the tag "X". -/
def c6game : Game := { name := some "G", tags := some ["X"] }

/-- C6 witness: the filter facts discharged at a concrete one-record list. -/
theorem c6_tag_include_filter_witness :
    "X" ∈ AchievementDashboard.gameTags c6game ∧
    (AchievementDashboard.passesFilters
      { currentPlatform := "all", includedTags := ["X"], excludedTags := [],
        searchQuery := "", currentSort := "name" } c6game = true ↔
      ∃ t ∈ AchievementDashboard.gameTags c6game, t ∈ (["X"] : List String)) :=
  ⟨c6_tag_include_filter.1 [c6game] "name" "X" c6game (by decide),
   c6_tag_include_filter.2 c6game ["X"] "name" (by decide)⟩

/-- Folding addition of unlocked counts equals the seed plus the mapped sum. -/
theorem foldl_add_unlocked (l : List Game) :
    ∀ i : Int, l.foldl (fun s g => s + g.unlockedAchievements) i =
      i + (l.map fun g => g.unlockedAchievements).sum := by
  induction l with
  | nil => intro i; simp
  | cons g l ih =>
    intro i
    simp [ih (i + g.unlockedAchievements)]
    ring

/-- The two records of the C7 example: unlocked {10, 5}, totals {10, 20}. -/
def c7g1 : Game := { name := some "One", totalAchievements := 10, unlockedAchievements := 10 }

def c7g2 : Game := { name := some "Two", totalAchievements := 20, unlockedAchievements := 5 }

/-- C7: `summarize` returns the sum of unlocked achievements and the count of
records with positive total and all achievements unlocked; on the example pair
it returns (15, 1). -/
theorem c7_summarize (games : List Game) :
    (AchievementDashboard.summarize games).1 =
      (games.map fun g => g.unlockedAchievements).sum ∧
    (AchievementDashboard.summarize games).2 =
      games.countP (fun g => decide (0 < g.totalAchievements) &&
        (g.unlockedAchievements == g.totalAchievements)) ∧
    AchievementDashboard.summarize [c7g1, c7g2] = (15, 1) := by
  refine ⟨?_, ?_, by decide⟩
  · rw [AchievementDashboard.summarize]
    rw [foldl_add_unlocked games 0]
    ring
  · rw [AchievementDashboard.summarize, List.countP_eq_length_filter]

/-- C10: `getGameLink` returns `none` for a record without a (truthy)
`platformId` and for a record whose platform is none of steam, gog,
retroachievements; with a non-empty `platformId` and one of those three
platforms it always returns a URL; and for a RetroAchievements subset record
the URL uses `parentId` as the game id with the subset id as a `?set=` query
parameter. -/
theorem c10_game_link (g : Game) :
    (g.platformId = none → AchievementDashboard.getGameLink g = none) ∧
    (∀ s, g.platformId = some s → s ≠ "" →
      g.platform ∉ (["steam", "gog", "retroachievements"] : List String) →
      AchievementDashboard.getGameLink g = none) ∧
    (∀ s, g.platformId = some s → s ≠ "" →
      g.platform ∈ (["steam", "gog", "retroachievements"] : List String) →
      (AchievementDashboard.getGameLink g).isSome = true) ∧
    (∀ s pid sid, g.platformId = some s → s ≠ "" →
      g.platform = "retroachievements" → g.isSubset = true →
      g.subsetId = some sid → sid ≠ "" → g.parentId = some pid → pid ≠ "" →
      AchievementDashboard.getGameLink g =
        some ("https://retroachievements.org/game/" ++ pid ++ "?set=" ++ sid)) := by
  refine ⟨?_, ?_, ?_, ?_⟩
  · intro h
    simp [AchievementDashboard.getGameLink, h, truthyS]
  · intro s hs hs0 hplat
    simp only [List.mem_cons, List.not_mem_nil, or_false, not_or] at hplat
    obtain ⟨h1, h2, h3⟩ := hplat
    have htr : truthyS g.platformId = true := by
      rw [hs]
      simpa [truthyS] using hs0
    simp [AchievementDashboard.getGameLink, htr, h1, h2, h3]
  · intro s hs hs0 hplat
    have htr : truthyS g.platformId = true := by
      rw [hs]
      simpa [truthyS] using hs0
    simp only [List.mem_cons, List.not_mem_nil, or_false] at hplat
    rcases hplat with h | h | h <;>
      simp [AchievementDashboard.getGameLink, htr, h] <;>
      split_ifs <;> simp
  · intro s pid sid hs hs0 hra hsub hsid hsid0 hpar hpid0
    have htr : truthyS g.platformId = true := by
      rw [hs]
      simpa [truthyS] using hs0
    have htrsid : truthyS (some sid) = true := by
      simpa [truthyS] using hsid0
    have htrpid : truthyS (some pid) = true := by
      simpa [truthyS] using hpid0
    simp [AchievementDashboard.getGameLink, htr, hra, hsub, hsid, htrsid,
      jsOrStr, hpar, htrpid, strVal]

/-- The C10 witness record: a RetroAchievements subset entry. -/
def c10g : Game :=
  { platform := "retroachievements"
    platformId := some "1234"
    parentId := some "9876"
    isSubset := true
    subsetId := some "1234" }

/-- C10 witness: the subset-link shape discharged at a concrete record. -/
theorem c10_game_link_witness :
    AchievementDashboard.getGameLink c10g =
      some "https://retroachievements.org/game/9876?set=1234" := by
  have h := (c10_game_link c10g).2.2.2 "1234" "9876" "1234" rfl (by decide) rfl rfl rfl
    (by decide) rfl (by decide)
  rw [h]
  rfl
